import Mathlib

/-
Shallow embedding of the hixi4/to-do-list service (Go) and verification of
its specification claims.

The repository holds three near-duplicate variants of one design:
  - src/main.go        : server-assigned int identifiers, Redis cache,
                         mutex held across the cache calls in getTasks /
                         updateTask / deleteTask (defer unlock).
  - src/unnamed/part_000 : server-assigned int identifiers, no cache.
  - src/unnamed/part_001 : client-supplied string identifiers, Redis cache,
                         mutex released before every cache call.

Each HTTP handler is embedded as a pure function from the store state and
the environment's answers (decoded request payload as Option, the cache
Get result, the cache Set/Del outcome) to the response, the new store
state, and a trace of lock/cache events in the order the code performs
them.  Go maps are embedded as association lists with replace-on-insert.
-/

namespace TodoList

/-- Observable events of a handler, in program order: mutex acquire and
release, the store-map mutation, and the three Redis calls.  The set event
records the key, the serialized value and the TTL in minutes. -/
inductive Event where
  | lock
  | unlock
  | mutate
  | cacheGet
  | cacheSet (key : String) (val : String) (ttlMinutes : Nat)
  | cacheDel (key : String)
deriving DecidableEq

/-- Result of a Redis Get as the handler observes it: a hit with the raw
cached bytes, redis.Nil (miss), or a transport error. -/
inductive CacheGetResult where
  | hit (val : String)
  | miss
  | error (msg : String)
deriving DecidableEq

/-- Lookup in a Go map embedded as an association list. -/
def mapLookup {κ α : Type} [DecidableEq κ] : List (κ × α) → κ → Option α
  | [], _ => none
  | (k0, v0) :: m, k => if k0 = k then some v0 else mapLookup m k

/-- Insert (or replace in place) in a Go map embedded as an association
list; a fresh key is appended. -/
def mapInsert {κ α : Type} [DecidableEq κ] : List (κ × α) → κ → α → List (κ × α)
  | [], k, v => [(k, v)]
  | (k0, v0) :: m, k, v => if k0 = k then (k, v) :: m else (k0, v0) :: mapInsert m k v

/-- Deletion from a Go map embedded as an association list. -/
def mapErase {κ α : Type} [DecidableEq κ] : List (κ × α) → κ → List (κ × α)
  | [], _ => []
  | (k0, v0) :: m, k => if k0 = k then mapErase m k else (k0, v0) :: mapErase m k

theorem mapLookup_insert_self {κ α : Type} [DecidableEq κ] (m : List (κ × α)) (k : κ) (v : α) :
    mapLookup (mapInsert m k v) k = some v := by
  induction m with
  | nil => simp [mapInsert, mapLookup]
  | cons p m ih =>
    obtain ⟨k0, v0⟩ := p
    by_cases h : k0 = k <;> simp [mapInsert, mapLookup, h, ih]

theorem mapLookup_insert_ne {κ α : Type} [DecidableEq κ] (m : List (κ × α)) (k k' : κ) (v : α)
    (h : k' ≠ k) : mapLookup (mapInsert m k v) k' = mapLookup m k' := by
  have hk : ¬ k = k' := fun h' => h h'.symm
  induction m with
  | nil => simp [mapInsert, mapLookup, hk]
  | cons p m ih =>
    obtain ⟨k0, v0⟩ := p
    by_cases h0 : k0 = k
    · subst h0
      simp [mapInsert, mapLookup, hk]
    · simp [mapInsert, mapLookup, h0, ih]

theorem mem_mapInsert {κ α : Type} [DecidableEq κ] (m : List (κ × α)) (k : κ) (v : α)
    (p : κ × α) (hp : p ∈ mapInsert m k v) : p ∈ m ∨ p = (k, v) := by
  induction m with
  | nil => simp [mapInsert] at hp; simp [hp]
  | cons q m ih =>
    obtain ⟨k0, v0⟩ := q
    by_cases h : k0 = k
    · simp [mapInsert, h] at hp
      rcases hp with hp | hp
      · right; simp [hp]
      · left; simp [hp]
    · simp [mapInsert, h] at hp
      rcases hp with hp | hp
      · left; simp [hp]
      · rcases ih hp with h1 | h1
        · left; simp [h1]
        · right; exact h1

/-- Two's-complement wrap of Go's 64-bit int: the representative of the
class of n modulo 2^64 that lies in the interval from -2^63 up to
2^63 - 1.  Go's int overflows by wrapping, so every arithmetic step of
the source that can overflow goes through this. -/
def wrap64 (n : Int) : Int := (n + 2 ^ 63) % 2 ^ 64 - 2 ^ 63

theorem wrap64_eq_self (n : Int) (h1 : -(2 ^ 63) ≤ n) (h2 : n < 2 ^ 63) : wrap64 n = n := by
  unfold wrap64
  omega

theorem mem_mapErase {κ α : Type} [DecidableEq κ] (m : List (κ × α)) (k : κ)
    (p : κ × α) (hp : p ∈ mapErase m k) : p ∈ m := by
  induction m with
  | nil => simpa [mapErase] using hp
  | cons q m ih =>
    obtain ⟨k0, v0⟩ := q
    by_cases h : k0 = k
    · simp [mapErase, h] at hp
      simp [ih hp]
    · simp [mapErase, h] at hp
      rcases hp with hp | hp
      · simp [hp]
      · simp [ih hp]

namespace MainGo

/-- Task record of src/main.go: int id, name, completed.  The Go int is
embedded as an Int carrying a 64-bit value; no handler does arithmetic on
a task's id, and both sources of ids (strconv.Atoi and the wrapped
counter) only produce values in the 64-bit range. -/
structure Task where
  id : Int
  name : String
  completed : Bool
deriving DecidableEq

/-- Global store of src/main.go: the tasks map and the nextID counter.
The counter is a Go int holding a 64-bit value; its single arithmetic
step, the increment in addTask, wraps through wrap64. -/
structure StoreState where
  tasks : List (Int × Task)
  nextID : Int
deriving DecidableEq

/-- Initial globals of src/main.go: tasks = map[int]Task\x7b\x7d, nextID = 1. -/
def initialState : StoreState := { tasks := [], nextID := 1 }

/-- HTTP responses the src/main.go handlers can produce. -/
inductive Response where
  | okBody (body : String)
  | okTask (t : Task)
  | created (t : Task)
  | noContent
  | notFound
  | badRequest
  | internalError (msg : String)
deriving DecidableEq

/-- JSON encoding of one task, as json.Marshal renders the Task struct of
src/main.go. -/
def encodeTask (t : Task) : String :=
  "\x7b\"id\":" ++ toString t.id ++ ",\"name\":\"" ++ t.name ++
    "\",\"completed\":" ++ (if t.completed then "true" else "false") ++ "\x7d"

/-- JSON encoding of a task list, as json.Marshal renders []Task. -/
def serialize (ts : List Task) : String :=
  "[" ++ String.intercalate "," (ts.map encodeTask) ++ "]"

/-- Handler getTasks of src/main.go (lines 38-65).  The mutex is locked
with a deferred unlock, so the whole cache interaction happens under the
lock.  On redis.Nil the store is listed, marshalled, Set with a ten-minute
TTL (the Set result is discarded by the code, hence the setErr argument is
ignored) and the bytes are written; on another error a 500 is written; on
a hit the cached bytes are written verbatim. -/
def getTasks (st : StoreState) (cacheRes : CacheGetResult) (setErr : Option String) :
    Response × StoreState × List Event :=
  match cacheRes with
  | .miss =>
    let taskList := st.tasks.map (·.2)
    let jsonData := serialize taskList
    (.okBody jsonData, st,
      [.lock, .cacheGet, .cacheSet "tasks" jsonData 10, .unlock])
  | .error msg => (.internalError msg, st, [.lock, .cacheGet, .unlock])
  | .hit val => (.okBody val, st, [.lock, .cacheGet, .unlock])

/-- Handler addTask of src/main.go (lines 68-87).  A bad body is rejected
before the lock; otherwise the task gets ID = nextID, nextID is
incremented (a Go int increment, so it wraps at 2^63 - 1), the task is
stored, the lock is released, and only then the cache key is deleted.
The created task is echoed with status 201. -/
def addTask (st : StoreState) (payload : Option Task) :
    Response × StoreState × List Event :=
  match payload with
  | none => (.badRequest, st, [])
  | some task0 =>
    let task := { task0 with id := st.nextID }
    let st' : StoreState :=
      { tasks := mapInsert st.tasks task.id task, nextID := wrap64 (st.nextID + 1) }
    (.created task, st', [.lock, .mutate, .unlock, .cacheDel "tasks"])

/-- Handler updateTask of src/main.go (lines 90-121), after the path id has
parsed.  A bad body is rejected before the lock.  Under the lock (deferred
unlock): if the id exists, name and completed are overwritten, the record
is stored back, the cache key is deleted while still holding the lock, and
the updated task is echoed; otherwise 404 and the cache is untouched. -/
def updateTask (st : StoreState) (id : Int) (payload : Option Task) :
    Response × StoreState × List Event :=
  match payload with
  | none => (.badRequest, st, [])
  | some updatedTask =>
    match mapLookup st.tasks id with
    | some task =>
      let task' := { task with name := updatedTask.name,
                               completed := updatedTask.completed }
      (.okTask task', { st with tasks := mapInsert st.tasks id task' },
        [.lock, .mutate, .cacheDel "tasks", .unlock])
    | none => (.notFound, st, [.lock, .unlock])

/-- Handler deleteTask of src/main.go (lines 124-145), after the path id
has parsed.  Under the lock (deferred unlock): if the id exists it is
deleted from the map and the cache key is deleted while still holding the
lock, answering 204; otherwise 404 and the cache is untouched. -/
def deleteTask (st : StoreState) (id : Int) :
    Response × StoreState × List Event :=
  match mapLookup st.tasks id with
  | some _ =>
    (.noContent, { st with tasks := mapErase st.tasks id },
      [.lock, .mutate, .cacheDel "tasks", .unlock])
  | none => (.notFound, st, [.lock, .unlock])

end MainGo

namespace Part000

/-- HTTP responses the src/unnamed/part_000 handlers can produce.  This
variant has no cache, so there is no internal-error path from Redis. -/
inductive Response where
  | okList (ts : List MainGo.Task)
  | okTask (t : MainGo.Task)
  | created (t : MainGo.Task)
  | noContent
  | notFound
  | badRequest
deriving DecidableEq

/-- Handler getTasks of src/unnamed/part_000 (lines 29-42): snapshot the
map under the lock, release, then encode the snapshot. -/
def getTasks (st : MainGo.StoreState) :
    Response × MainGo.StoreState × List Event :=
  let taskList := st.tasks.map (·.2)
  (.okList taskList, st, [.lock, .unlock])

/-- Handler addTask of src/unnamed/part_000 (lines 45-63): same store
effect as the main.go addTask, including the wrapping Go int increment of
nextID, with no cache call afterwards. -/
def addTask (st : MainGo.StoreState) (payload : Option MainGo.Task) :
    Response × MainGo.StoreState × List Event :=
  match payload with
  | none => (.badRequest, st, [])
  | some task0 =>
    let task := { task0 with id := st.nextID }
    let st' : MainGo.StoreState :=
      { tasks := mapInsert st.tasks task.id task, nextID := wrap64 (st.nextID + 1) }
    (.created task, st', [.lock, .mutate, .unlock])

/-- Handler updateTask of src/unnamed/part_000 (lines 66-98): under the
lock, if the id exists its name and completed fields are replaced; the
lock is released before the 404 / echo decision. -/
def updateTask (st : MainGo.StoreState) (id : Int) (payload : Option MainGo.Task) :
    Response × MainGo.StoreState × List Event :=
  match payload with
  | none => (.badRequest, st, [])
  | some updatedTask =>
    match mapLookup st.tasks id with
    | some task =>
      let task' := { task with name := updatedTask.name,
                               completed := updatedTask.completed }
      (.okTask task', { st with tasks := mapInsert st.tasks id task' },
        [.lock, .mutate, .unlock])
    | none => (.notFound, st, [.lock, .unlock])

/-- Handler deleteTask of src/unnamed/part_000 (lines 101-122). -/
def deleteTask (st : MainGo.StoreState) (id : Int) :
    Response × MainGo.StoreState × List Event :=
  match mapLookup st.tasks id with
  | some _ =>
    (.noContent, { st with tasks := mapErase st.tasks id },
      [.lock, .mutate, .unlock])
  | none => (.notFound, st, [.lock, .unlock])

end Part000

namespace Part001

/-- Task record of src/unnamed/part_001: string id, title, completed. -/
structure Task where
  id : String
  title : String
  completed : Bool
deriving DecidableEq

/-- Store of src/unnamed/part_001: tasks = make(map[string]Task), no
counter (identifiers are client-supplied). -/
abbrev Store : Type := List (String × Task)

/-- HTTP responses the src/unnamed/part_001 handlers can produce.  The 201
of createTask and the 200 of updateTask carry no body. -/
inductive Response where
  | okBody (body : String)
  | created
  | okNoBody
  | noContent
  | badRequest
  | internalError (msg : String)
deriving DecidableEq

/-- JSON encoding of one task, as json.Marshal renders the Task struct of
src/unnamed/part_001. -/
def encodeTask (t : Task) : String :=
  "\x7b\"id\":\"" ++ t.id ++ "\",\"title\":\"" ++ t.title ++
    "\",\"completed\":" ++ (if t.completed then "true" else "false") ++ "\x7d"

/-- JSON encoding of a task list, as json.Marshal renders []Task. -/
def serialize (ts : List Task) : String :=
  "[" ++ String.intercalate "," (ts.map encodeTask) ++ "]"

/-- Handler getTasks of src/unnamed/part_001 (lines 54-97).  The cache Get
runs before any locking.  On redis.Nil the map is snapshotted under the
lock, released, marshalled (Marshal of []Task cannot fail, so that error
branch is vacuous), then Set with a ten-minute TTL; if the Set fails the
handler answers 500 and the fresh bytes are not written, otherwise it
writes them.  On another Get error a 500; on a hit the cached bytes are
written verbatim. -/
def getTasks (ts : Store) (cacheRes : CacheGetResult) (setErr : Option String) :
    Response × Store × List Event :=
  match cacheRes with
  | .miss =>
    let taskList := (ts : List (String × Task)).map (·.2)
    let jsonData := serialize taskList
    match setErr with
    | some e =>
      (.internalError e, ts,
        [.cacheGet, .lock, .unlock, .cacheSet "tasks" jsonData 10])
    | none =>
      (.okBody jsonData, ts,
        [.cacheGet, .lock, .unlock, .cacheSet "tasks" jsonData 10])
  | .error msg => (.internalError msg, ts, [.cacheGet])
  | .hit val => (.okBody val, ts, [.cacheGet])

/-- Handler createTask of src/unnamed/part_001 (lines 100-121): the decoded
task is stored under its own client-supplied id, overwriting any previous
record with that id; after releasing the lock the cache key is deleted.  A
Del failure answers 500; otherwise 201 with no body. -/
def createTask (ts : Store) (payload : Option Task) (delErr : Option String) :
    Response × Store × List Event :=
  match payload with
  | none => (.badRequest, ts, [])
  | some task =>
    let ts' := mapInsert ts task.id task
    match delErr with
    | some e => (.internalError e, ts', [.lock, .mutate, .unlock, .cacheDel "tasks"])
    | none => (.created, ts', [.lock, .mutate, .unlock, .cacheDel "tasks"])

/-- Handler updateTask of src/unnamed/part_001 (lines 124-148): the decoded
payload's id is overwritten with the path id, then the record is stored
under that id unconditionally (an upsert: no existence check, no 404);
after releasing the lock the cache key is deleted.  A Del failure answers
500; otherwise 200 with no body. -/
def updateTask (ts : Store) (id : String) (payload : Option Task) (delErr : Option String) :
    Response × Store × List Event :=
  match payload with
  | none => (.badRequest, ts, [])
  | some task0 =>
    let task := { task0 with id := id }
    let ts' := mapInsert ts id task
    match delErr with
    | some e => (.internalError e, ts', [.lock, .mutate, .unlock, .cacheDel "tasks"])
    | none => (.okNoBody, ts', [.lock, .mutate, .unlock, .cacheDel "tasks"])

/-- Handler deleteTask of src/unnamed/part_001 (lines 151-167): the id is
deleted from the map with no existence check (deleting an absent id is a
no-op), the lock is released, and the cache key is deleted.  A Del failure
answers 500; otherwise 204 — there is no 404 path at all. -/
def deleteTask (ts : Store) (id : String) (delErr : Option String) :
    Response × Store × List Event :=
  let ts' := mapErase ts id
  match delErr with
  | some e => (.internalError e, ts', [.lock, .mutate, .unlock, .cacheDel "tasks"])
  | none => (.noContent, ts', [.lock, .mutate, .unlock, .cacheDel "tasks"])

end Part001

/-- True when some cache call (Get, Set or Del) in the trace happens while
the mutex is held; the accumulator counts currently held acquisitions. -/
def cacheWhileLockedAux : Nat → List Event → Bool
  | _, [] => false
  | d, .lock :: r => cacheWhileLockedAux (d + 1) r
  | d, .unlock :: r => cacheWhileLockedAux (d - 1) r
  | d, .mutate :: r => cacheWhileLockedAux d r
  | d, .cacheGet :: r => decide (0 < d) || cacheWhileLockedAux d r
  | d, .cacheSet _ _ _ :: r => decide (0 < d) || cacheWhileLockedAux d r
  | d, .cacheDel _ :: r => decide (0 < d) || cacheWhileLockedAux d r

/-- True when some cache call in the trace happens while the mutex is
held, starting outside any lock. -/
def cacheWhileLocked (tr : List Event) : Bool :=
  cacheWhileLockedAux 0 tr

/-- True when the trace contains no cache Set at all. -/
def noCacheSet (tr : List Event) : Bool :=
  tr.all fun e =>
    match e with
    | .cacheSet _ _ _ => false
    | _ => true

/-- True when the trace contains a store mutation followed (strictly
later) by a Del of the given cache key. -/
def delAfterMutate (key : String) : List Event → Bool
  | [] => false
  | .mutate :: r => r.any (fun e => e = Event.cacheDel key) || delAfterMutate key r
  | _ :: r => delAfterMutate key r

/-- True when the trace contains no cache event at all. -/
def noCacheCall (tr : List Event) : Bool :=
  tr.all fun e =>
    match e with
    | .cacheGet => false
    | .cacheSet _ _ _ => false
    | .cacheDel _ => false
    | _ => true

namespace MainGo

/-- Run a sequence of addTask calls of src/main.go with the given decoded
payloads, collecting the created records in call order. -/
def runCreates (st : StoreState) : List Task → List Task × StoreState
  | [] => ([], st)
  | p :: ps =>
    match addTask st (some p) with
    | (.created t, st', _) =>
      let r := runCreates st' ps
      (t :: r.1, r.2)
    | (_, st', _) => runCreates st' ps

/-- Specification-side description of server-assigned creation: the k-th
payload is returned with its id field replaced by the k-th value of the
counter — which advances by wrapping 64-bit increments — every other field
taken from the payload, the payload's own id discarded. -/
def assignedFrom (n : Int) : List Task → List Task
  | [] => []
  | p :: ps => { p with id := n } :: assignedFrom (wrap64 (n + 1)) ps

/-- Run a sequence of addTask calls of src/unnamed/part_000. -/
def runCreates000 (st : StoreState) : List Task → List Task × StoreState
  | [] => ([], st)
  | p :: ps =>
    match Part000.addTask st (some p) with
    | (.created t, st', _) =>
      let r := runCreates000 st' ps
      (t :: r.1, r.2)
    | (_, st', _) => runCreates000 st' ps

/-- One coordinator operation of the server-assigned variants, carrying
the environment answers the corresponding handler consumes. -/
inductive SOp where
  | create (p : Task)
  | update (id : Int) (p : Task)
  | del (id : Int)
  | list (c : CacheGetResult) (s : Option String)

/-- Store-state effect of one src/main.go handler invocation. -/
def stepS (st : StoreState) : SOp → StoreState
  | .create p => (addTask st (some p)).2.1
  | .update id p => (updateTask st id (some p)).2.1
  | .del id => (deleteTask st id).2.1
  | .list c s => (getTasks st c s).2.1

/-- Iterated src/main.go handler invocations. -/
def runS (st : StoreState) : List SOp → StoreState
  | [] => st
  | op :: ops => runS (stepS st op) ops

/-- True when one operation cannot wrap the counter: only a create
increments nextID, and the Go int increment is wrap-free exactly when the
counter sits strictly inside the 64-bit range below its maximum. -/
def noOverflow (st : StoreState) : SOp → Bool
  | .create _ => decide (-(2 ^ 63) ≤ st.nextID ∧ st.nextID < 2 ^ 63 - 1)
  | _ => true

/-- True when no operation of the run wraps the counter. -/
def runNoOverflow : StoreState → List SOp → Bool
  | _, [] => true
  | st, op :: ops => noOverflow st op && runNoOverflow (stepS st op) ops

/-- Counter invariant of the server-assigned variants: nextID is strictly
above every key present in the tasks map. -/
def counterInv (st : StoreState) : Prop :=
  ∀ p ∈ st.tasks, p.1 < st.nextID

instance (st : StoreState) : Decidable (counterInv st) :=
  List.decidableBAll _ st.tasks

end MainGo

namespace Part001

/-- One coordinator operation of the client-supplied variant, carrying the
decoded payload and the cache Del outcome the handler consumes. -/
inductive COp where
  | create (p : Task) (delErr : Option String)
  | update (id : String) (p : Task) (delErr : Option String)
  | del (id : String) (delErr : Option String)

/-- Store effect of one src/unnamed/part_001 handler invocation. -/
def stepC (ts : Store) : COp → Store
  | .create p e => (createTask ts (some p) e).2.1
  | .update id p e => (updateTask ts id (some p) e).2.1
  | .del id e => (deleteTask ts id e).2.1

/-- Iterated src/unnamed/part_001 handler invocations from the empty
initial map. -/
def runC (ts : Store) : List COp → Store
  | [] => ts
  | op :: ops => runC (stepC ts op) ops

/-- Key-field invariant of the client-supplied variant: every stored
record's id field equals its key in the map. -/
def keyInv (ts : Store) : Prop :=
  ∀ p ∈ ts, (p.2).id = p.1

instance (ts : Store) : Decidable (keyInv ts) :=
  List.decidableBAll _ ts

end Part001

theorem mapLookup_mem {κ α : Type} [DecidableEq κ] (m : List (κ × α)) (k : κ) (v : α)
    (h : mapLookup m k = some v) : (k, v) ∈ m := by
  induction m with
  | nil => simp [mapLookup] at h
  | cons p m ih =>
    obtain ⟨k0, v0⟩ := p
    by_cases h0 : k0 = k
    · subst h0
      simp [mapLookup] at h
      simp [h]
    · simp [mapLookup, h0] at h
      simp [ih h]

namespace MainGo

theorem runCreates_eq (st : StoreState) (ps : List Task) :
    (runCreates st ps).1 = assignedFrom st.nextID ps := by
  induction ps generalizing st with
  | nil => rfl
  | cons p ps ih =>
    simp [runCreates, addTask, assignedFrom, ih]

theorem runCreates000_eq (st : StoreState) (ps : List Task) :
    (runCreates000 st ps).1 = assignedFrom st.nextID ps := by
  induction ps generalizing st with
  | nil => rfl
  | cons p ps ih =>
    simp [runCreates000, Part000.addTask, assignedFrom, ih]

theorem assignedFrom_le (n : Int) (ps : List Task) (h1 : -(2 ^ 63) ≤ n)
    (h2 : n + ps.length ≤ 2 ^ 63 - 1) :
    ∀ t ∈ assignedFrom n ps, n ≤ t.id := by
  induction ps generalizing n with
  | nil => simp [assignedFrom]
  | cons p ps ih =>
    intro t ht
    simp only [List.length_cons, Nat.cast_add, Nat.cast_one] at h2
    have hw : wrap64 (n + 1) = n + 1 := wrap64_eq_self (n + 1) (by omega) (by omega)
    simp only [assignedFrom, hw, List.mem_cons] at ht
    rcases ht with ht | ht
    · simp [ht]
    · have := ih (n + 1) (by omega) (by omega) t ht
      omega

theorem assignedFrom_pairwise (n : Int) (ps : List Task) (h1 : -(2 ^ 63) ≤ n)
    (h2 : n + ps.length ≤ 2 ^ 63 - 1) :
    ((assignedFrom n ps).map Task.id).Pairwise (· < ·) := by
  induction ps generalizing n with
  | nil => simp [assignedFrom]
  | cons p ps ih =>
    simp only [List.length_cons, Nat.cast_add, Nat.cast_one] at h2
    have hw : wrap64 (n + 1) = n + 1 := wrap64_eq_self (n + 1) (by omega) (by omega)
    simp only [assignedFrom, hw, List.map_cons, List.pairwise_cons]
    refine ⟨?_, ih (n + 1) (by omega) (by omega)⟩
    intro b hb
    simp only [List.mem_map] at hb
    obtain ⟨t, ht, rfl⟩ := hb
    have := assignedFrom_le (n + 1) ps (by omega) (by omega) t ht
    omega

theorem counterInv_insert_new (st : StoreState) (t : Task) (h : counterInv st) :
    counterInv ⟨mapInsert st.tasks st.nextID t, st.nextID + 1⟩ := by
  -- wrap-free form; callers rewrite wrap64 (nextID + 1) to nextID + 1
  -- from their no-overflow hypothesis before applying this

  intro p hp
  show p.1 < st.nextID + 1
  rcases mem_mapInsert _ _ _ _ hp with hp | hp
  · have := h p hp
    omega
  · simp [hp]

theorem counterInv_insert_existing (st : StoreState) (k : Int) (t : Task)
    (h : counterInv st) (hk : k < st.nextID) :
    counterInv { st with tasks := mapInsert st.tasks k t } := by
  intro p hp
  rcases mem_mapInsert _ _ _ _ hp with hp | hp
  · exact h p hp
  · simp [hp, hk]

theorem counterInv_erase (st : StoreState) (k : Int) (h : counterInv st) :
    counterInv { st with tasks := mapErase st.tasks k } := by
  intro p hp
  exact h p (mem_mapErase _ _ _ hp)

theorem counterInv_stepS (st : StoreState) (op : SOp) (h : counterInv st)
    (hop : noOverflow st op = true) : counterInv (stepS st op) := by
  cases op with
  | create p =>
    have hb : -(2 ^ 63) ≤ st.nextID ∧ st.nextID < 2 ^ 63 - 1 := by
      simpa [noOverflow] using hop
    have hw : wrap64 (st.nextID + 1) = st.nextID + 1 :=
      wrap64_eq_self (st.nextID + 1) (by omega) (by omega)
    simpa [stepS, addTask, hw] using counterInv_insert_new st { p with id := st.nextID } h
  | update id p =>
    cases hl : mapLookup st.tasks id with
    | none => simpa [stepS, updateTask, hl] using h
    | some t =>
      have hk : id < st.nextID := h (id, t) (mapLookup_mem _ _ _ hl)
      simpa [stepS, updateTask, hl] using
        counterInv_insert_existing st id
          { t with name := p.name, completed := p.completed } h hk
  | del id =>
    cases hl : mapLookup st.tasks id with
    | none => simpa [stepS, deleteTask, hl] using h
    | some t => simpa [stepS, deleteTask, hl] using counterInv_erase st id h
  | list c s =>
    cases c <;> simpa [stepS, getTasks] using h

theorem stepS_nextID_le (st : StoreState) (op : SOp)
    (hop : noOverflow st op = true) : st.nextID ≤ (stepS st op).nextID := by
  cases op with
  | create p =>
    have hb : -(2 ^ 63) ≤ st.nextID ∧ st.nextID < 2 ^ 63 - 1 := by
      simpa [noOverflow] using hop
    have hw : wrap64 (st.nextID + 1) = st.nextID + 1 :=
      wrap64_eq_self (st.nextID + 1) (by omega) (by omega)
    simp [stepS, addTask, hw]
  | update id p =>
    cases hl : mapLookup st.tasks id <;> simp [stepS, updateTask, hl]
  | del id =>
    cases hl : mapLookup st.tasks id <;> simp [stepS, deleteTask, hl]
  | list c s =>
    cases c <;> simp [stepS, getTasks]

theorem runS_nextID_le (st : StoreState) (ops : List SOp)
    (hw : runNoOverflow st ops = true) : st.nextID ≤ (runS st ops).nextID := by
  induction ops generalizing st with
  | nil => simp [runS]
  | cons op ops ih =>
    rw [runNoOverflow, Bool.and_eq_true] at hw
    calc st.nextID ≤ (stepS st op).nextID := stepS_nextID_le st op hw.1
    _ ≤ (runS (stepS st op) ops).nextID := ih (stepS st op) hw.2

end MainGo

namespace Part001

theorem keyInv_stepC (ts : Store) (op : COp) (h : keyInv ts) : keyInv (stepC ts op) := by
  cases op with
  | create p e =>
    intro q hq
    cases e <;>
      rcases mem_mapInsert _ _ _ _ (by simpa [stepC, createTask] using hq) with hq' | hq' <;>
      first
        | exact h q hq'
        | simp [hq']
  | update id p e =>
    intro q hq
    cases e <;>
      rcases mem_mapInsert _ _ _ _ (by simpa [stepC, updateTask] using hq) with hq' | hq' <;>
      first
        | exact h q hq'
        | simp [hq']
  | del id e =>
    intro q hq
    cases e <;> exact h q (mem_mapErase _ _ _ (by simpa [stepC, deleteTask] using hq))

theorem keyInv_runC (ts : Store) (ops : List COp) (h : keyInv ts) : keyInv (runC ts ops) := by
  induction ops generalizing ts with
  | nil => simpa [runC] using h
  | cons op ops ih => exact ih (stepC ts op) (keyInv_stepC ts op h)

end Part001

theorem mapErase_of_lookup_none {κ α : Type} [DecidableEq κ] (m : List (κ × α)) (k : κ)
    (h : mapLookup m k = none) : mapErase m k = m := by
  induction m with
  | nil => rfl
  | cons p m ih =>
    obtain ⟨k0, v0⟩ := p
    by_cases h0 : k0 = k
    · simp [mapLookup, h0] at h
    · simp [mapLookup, h0] at h
      simp [mapErase, h0, ih h]

/-- C1 as stated is false on src/unnamed/part_001: deleteTask on the id
"x", absent from the empty store, answers 204 No Content instead of
NotFound and still issues a cache Delete. -/
theorem C1_counterexample :
    (Part001.deleteTask [] "x" none).1 = Part001.Response.noContent ∧
    Event.cacheDel "tasks" ∈ (Part001.deleteTask [] "x" none).2.2 := by
  decide

/-- C1 (amended): in src/main.go, Update and Delete on an id absent from
the store answer NotFound, return the store unchanged, and their traces
contain no cache call at all; in src/unnamed/part_001, Delete on an absent
id is a no-op that answers 204 and still issues a cache Delete, and Update
on an absent id inserts the record (an upsert) and issues a cache
Delete. -/
theorem C1_not_found_symmetry (st : MainGo.StoreState) (id : Int) (p : MainGo.Task)
    (ts : Part001.Store) (sid : String) (q : Part001.Task)
    (h : mapLookup st.tasks id = none) (hq : mapLookup ts sid = none) :
    MainGo.updateTask st id (some p) =
      (MainGo.Response.notFound, st, [Event.lock, Event.unlock]) ∧
    MainGo.deleteTask st id =
      (MainGo.Response.notFound, st, [Event.lock, Event.unlock]) ∧
    Part001.deleteTask ts sid none =
      (Part001.Response.noContent, ts,
        [Event.lock, Event.mutate, Event.unlock, Event.cacheDel "tasks"]) ∧
    Part001.updateTask ts sid (some q) none =
      (Part001.Response.okNoBody, mapInsert ts sid { q with id := sid },
        [Event.lock, Event.mutate, Event.unlock, Event.cacheDel "tasks"]) := by
  refine ⟨?_, ?_, ?_, rfl⟩
  · simp [MainGo.updateTask, h]
  · simp [MainGo.deleteTask, h]
  · simp [Part001.deleteTask, mapErase_of_lookup_none ts sid hq]

theorem C1_witness :
    mapLookup MainGo.initialState.tasks 5 = none ∧
    mapLookup ([] : Part001.Store) "a" = none ∧
    MainGo.updateTask MainGo.initialState 5 (some ⟨0, "x", false⟩) =
      (MainGo.Response.notFound, MainGo.initialState, [Event.lock, Event.unlock]) ∧
    (Part001.deleteTask [] "a" none).1 = Part001.Response.noContent :=
  ⟨by decide, by decide,
    (C1_not_found_symmetry MainGo.initialState 5 ⟨0, "x", false⟩ [] "a" ⟨"", "t", false⟩
      (by decide) (by decide)).1,
    congrArg Prod.fst
      ((C1_not_found_symmetry MainGo.initialState 5 ⟨0, "x", false⟩ [] "a" ⟨"", "t", false⟩
        (by decide) (by decide)).2.2.1)⟩

/-- C2: on every write whose store mutation happens — addTask, the found
branches of updateTask and deleteTask in src/main.go, and createTask,
updateTask and deleteTask in src/unnamed/part_001, whatever the Del
outcome — the trace contains a cache Delete of the key "tasks" strictly
after the store mutation, and contains no cache Set at all: the cache is
invalidated, never updated in place. -/
theorem C2_invalidate_after_write (st : MainGo.StoreState) (id : Int) (p t : MainGo.Task)
    (ts : Part001.Store) (sid : String) (q : Part001.Task) (e : Option String)
    (hu : mapLookup st.tasks id = some t) :
    (delAfterMutate "tasks" (MainGo.addTask st (some p)).2.2 = true ∧
      noCacheSet (MainGo.addTask st (some p)).2.2 = true) ∧
    (delAfterMutate "tasks" (MainGo.updateTask st id (some p)).2.2 = true ∧
      noCacheSet (MainGo.updateTask st id (some p)).2.2 = true) ∧
    (delAfterMutate "tasks" (MainGo.deleteTask st id).2.2 = true ∧
      noCacheSet (MainGo.deleteTask st id).2.2 = true) ∧
    (delAfterMutate "tasks" (Part001.createTask ts (some q) e).2.2 = true ∧
      noCacheSet (Part001.createTask ts (some q) e).2.2 = true) ∧
    (delAfterMutate "tasks" (Part001.updateTask ts sid (some q) e).2.2 = true ∧
      noCacheSet (Part001.updateTask ts sid (some q) e).2.2 = true) ∧
    (delAfterMutate "tasks" (Part001.deleteTask ts sid e).2.2 = true ∧
      noCacheSet (Part001.deleteTask ts sid e).2.2 = true) := by
  refine ⟨⟨rfl, rfl⟩, ?_, ?_, ?_, ?_, ?_⟩
  · constructor <;> simp [MainGo.updateTask, hu, delAfterMutate, noCacheSet]
  · constructor <;> simp [MainGo.deleteTask, hu, delAfterMutate, noCacheSet]
  · cases e <;> exact ⟨rfl, rfl⟩
  · cases e <;> exact ⟨rfl, rfl⟩
  · cases e <;> exact ⟨rfl, rfl⟩

theorem C2_witness :
    mapLookup ((⟨[(1, ⟨1, "A", false⟩)], 2⟩ : MainGo.StoreState)).tasks 1 =
      some ⟨1, "A", false⟩ ∧
    delAfterMutate "tasks"
      (MainGo.updateTask ⟨[(1, ⟨1, "A", false⟩)], 2⟩ 1 (some ⟨0, "B", true⟩)).2.2 = true :=
  ⟨by decide,
    (C2_invalidate_after_write ⟨[(1, ⟨1, "A", false⟩)], 2⟩ 1 ⟨0, "B", true⟩ ⟨1, "A", false⟩
      [] "a" ⟨"a", "t", false⟩ none (by decide)).2.1.1⟩

/-- C3 as stated is false under Go's wrapping int: with the counter at
the maximum int 2^63 - 1, two creates return the ids 2^63 - 1 and then
-2^63 — the increment wraps, so over every sequence of creates the
returned identifiers are not strictly increasing. -/
theorem C3_counterexample :
    ((MainGo.runCreates ⟨[], 2 ^ 63 - 1⟩
        [⟨0, "A", false⟩, ⟨0, "B", false⟩]).1.map MainGo.Task.id) =
      [2 ^ 63 - 1, -(2 ^ 63)] ∧
    ¬ ((MainGo.runCreates ⟨[], 2 ^ 63 - 1⟩
        [⟨0, "A", false⟩, ⟨0, "B", false⟩]).1.map MainGo.Task.id).Pairwise (· < ·) := by
  decide

/-- C3 (amended): running a sequence of creates through addTask of
src/main.go or of src/unnamed/part_000 returns the payloads with their id
fields replaced by the successive counter values and the payload's own id
discarded; and whenever the counter does not overflow during the run —
which holds for every feasible run from the initial state, where nextID
starts at 1 — the returned identifiers are strictly increasing in call
order and pairwise distinct.  At the maximum int the Go int counter wraps
and strict increase fails. -/
theorem C3_create_ids_strictly_increasing (st : MainGo.StoreState) (ps : List MainGo.Task)
    (h1 : -(2 ^ 63) ≤ st.nextID) (h2 : st.nextID + ps.length ≤ 2 ^ 63 - 1) :
    (MainGo.runCreates st ps).1 = MainGo.assignedFrom st.nextID ps ∧
    (MainGo.runCreates000 st ps).1 = MainGo.assignedFrom st.nextID ps ∧
    ((MainGo.runCreates st ps).1.map MainGo.Task.id).Pairwise (· < ·) ∧
    ((MainGo.runCreates st ps).1.map MainGo.Task.id).Nodup := by
  refine ⟨MainGo.runCreates_eq st ps, MainGo.runCreates000_eq st ps, ?_, ?_⟩
  · rw [MainGo.runCreates_eq]
    exact MainGo.assignedFrom_pairwise st.nextID ps h1 h2
  · rw [MainGo.runCreates_eq]
    exact (MainGo.assignedFrom_pairwise st.nextID ps h1 h2).imp fun h => ne_of_lt h

theorem C3_witness :
    -(2 ^ 63) ≤ MainGo.initialState.nextID ∧
    MainGo.initialState.nextID +
      ([⟨5, "A", false⟩, ⟨7, "B", true⟩] : List MainGo.Task).length ≤ 2 ^ 63 - 1 ∧
    ((MainGo.runCreates MainGo.initialState
        [⟨5, "A", false⟩, ⟨7, "B", true⟩]).1.map MainGo.Task.id).Pairwise (· < ·) :=
  ⟨by decide, by decide,
    (C3_create_ids_strictly_increasing MainGo.initialState
      [⟨5, "A", false⟩, ⟨7, "B", true⟩] (by decide) (by decide)).2.2.1⟩

/-- C4: both cached getTasks handlers follow the cache-aside read
protocol: on a hit the cached bytes are answered verbatim and nothing else
happens to the cache; on a miss the store snapshot is serialized, Set
under the fixed key "tasks" with a ten-minute TTL, and exactly those
serialized bytes are answered. -/
theorem C4_cache_aside_read (st : MainGo.StoreState) (ts : Part001.Store)
    (v : String) (se : Option String) :
    MainGo.getTasks st (CacheGetResult.hit v) se =
      (MainGo.Response.okBody v, st, [Event.lock, Event.cacheGet, Event.unlock]) ∧
    MainGo.getTasks st CacheGetResult.miss se =
      (MainGo.Response.okBody (MainGo.serialize (st.tasks.map Prod.snd)), st,
        [Event.lock, Event.cacheGet,
          Event.cacheSet "tasks" (MainGo.serialize (st.tasks.map Prod.snd)) 10,
          Event.unlock]) ∧
    Part001.getTasks ts (CacheGetResult.hit v) se =
      (Part001.Response.okBody v, ts, [Event.cacheGet]) ∧
    Part001.getTasks ts CacheGetResult.miss none =
      (Part001.Response.okBody (Part001.serialize (ts.map Prod.snd)), ts,
        [Event.cacheGet, Event.lock, Event.unlock,
          Event.cacheSet "tasks" (Part001.serialize (ts.map Prod.snd)) 10]) :=
  ⟨rfl, rfl, rfl, rfl⟩

/-- C5 as stated is false on src/unnamed/part_001: on the miss path with a
failing cache Set, getTasks answers an internal error and the freshly
serialized store data is not returned to the caller. -/
theorem C5_counterexample :
    (Part001.getTasks [] CacheGetResult.miss (some "redis set failed")).1 =
      Part001.Response.internalError "redis set failed" ∧
    (Part001.getTasks [] CacheGetResult.miss (some "redis set failed")).1 ≠
      Part001.Response.okBody (Part001.serialize []) := by
  decide

/-- C5 (amended): on the GetAll miss path with a failing cache Set,
src/main.go discards the Set outcome and still answers the freshly read
store data (the failure is not surfaced), while src/unnamed/part_001
surfaces the failure as an internal error and does not answer the fresh
data. -/
theorem C5_set_failure_behaviour (st : MainGo.StoreState) (ts : Part001.Store) (e : String) :
    (MainGo.getTasks st CacheGetResult.miss (some e)).1 =
      MainGo.Response.okBody (MainGo.serialize (st.tasks.map Prod.snd)) ∧
    (Part001.getTasks ts CacheGetResult.miss (some e)).1 =
      Part001.Response.internalError e :=
  ⟨rfl, rfl⟩

/-- C6 as stated is false on src/main.go: getTasks performs its cache Get
(and on a miss its cache Set) while holding the mutex, and the found
branches of updateTask and deleteTask perform the cache Delete while
holding the mutex, because all three lock with a deferred unlock. -/
theorem C6_counterexample :
    cacheWhileLocked (MainGo.getTasks MainGo.initialState CacheGetResult.miss none).2.2 = true ∧
    cacheWhileLocked
      (MainGo.updateTask ⟨[(1, ⟨1, "A", false⟩)], 2⟩ 1 (some ⟨0, "B", true⟩)).2.2 = true ∧
    cacheWhileLocked (MainGo.deleteTask ⟨[(1, ⟨1, "A", false⟩)], 2⟩ 1).2.2 = true := by
  decide

/-- C6 (amended): the store lock never spans a cache call in
src/unnamed/part_001 (all four handlers) and in addTask of src/main.go,
and src/unnamed/part_000 performs no cache call at all; but getTasks of
src/main.go always calls the cache under the lock, and updateTask and
deleteTask of src/main.go call the cache under the lock whenever the id
exists. -/
theorem C6_lock_never_spans_cache (st : MainGo.StoreState) (p0 : Option MainGo.Task)
    (id : Int) (t p : MainGo.Task) (ts : Part001.Store) (sid : String)
    (q0 : Option Part001.Task) (c : CacheGetResult) (se e : Option String)
    (hu : mapLookup st.tasks id = some t) :
    cacheWhileLocked (MainGo.addTask st p0).2.2 = false ∧
    cacheWhileLocked (Part001.getTasks ts c se).2.2 = false ∧
    cacheWhileLocked (Part001.createTask ts q0 e).2.2 = false ∧
    cacheWhileLocked (Part001.updateTask ts sid q0 e).2.2 = false ∧
    cacheWhileLocked (Part001.deleteTask ts sid e).2.2 = false ∧
    noCacheCall (Part000.getTasks st).2.2 = true ∧
    noCacheCall (Part000.addTask st p0).2.2 = true ∧
    noCacheCall (Part000.updateTask st id p0).2.2 = true ∧
    noCacheCall (Part000.deleteTask st id).2.2 = true ∧
    cacheWhileLocked (MainGo.getTasks st c se).2.2 = true ∧
    cacheWhileLocked (MainGo.updateTask st id (some p)).2.2 = true ∧
    cacheWhileLocked (MainGo.deleteTask st id).2.2 = true := by
  refine ⟨?_, ?_, ?_, ?_, ?_, rfl, ?_, ?_, ?_, ?_, ?_, ?_⟩
  · cases p0 <;> rfl
  · cases c <;> cases se <;> rfl
  · cases q0 <;> cases e <;> rfl
  · cases q0 <;> cases e <;> rfl
  · cases e <;> rfl
  · cases p0 <;> rfl
  · cases p0 with
    | none => rfl
    | some q => cases hl : mapLookup st.tasks id <;> simp [Part000.updateTask, hl, noCacheCall]
  · cases hl : mapLookup st.tasks id <;> simp [Part000.deleteTask, hl, noCacheCall]
  · cases c <;> rfl
  · simp [MainGo.updateTask, hu, cacheWhileLocked, cacheWhileLockedAux]
  · simp [MainGo.deleteTask, hu, cacheWhileLocked, cacheWhileLockedAux]

theorem C6_witness :
    mapLookup ((⟨[(1, ⟨1, "A", false⟩)], 2⟩ : MainGo.StoreState)).tasks 1 =
      some ⟨1, "A", false⟩ ∧
    cacheWhileLocked
      (Part001.getTasks [] CacheGetResult.miss none).2.2 = false :=
  ⟨by decide,
    (C6_lock_never_spans_cache ⟨[(1, ⟨1, "A", false⟩)], 2⟩ none 1 ⟨1, "A", false⟩
      ⟨0, "B", true⟩ [] "a" none CacheGetResult.miss none none (by decide)).2.1⟩

/-- C7: in src/unnamed/part_001, updateTask stores under the path id the
decoded payload with its id field overwritten by the path id, whatever the
cache Del outcome; and every store reachable from the empty initial map by
any sequence of handler invocations satisfies the invariant that each
stored record's id field equals its key. -/
theorem C7_stored_id_equals_key (ts : Part001.Store) (id : String) (p : Part001.Task)
    (e : Option String) (ops : List Part001.COp) :
    mapLookup (Part001.updateTask ts id (some p) e).2.1 id = some { p with id := id } ∧
    Part001.keyInv (Part001.runC [] ops) := by
  constructor
  · cases e <;> exact mapLookup_insert_self ts id { p with id := id }
  · refine Part001.keyInv_runC [] ops ?_
    intro q hq
    simp at hq

/-- C8: updateTask of src/main.go and of src/unnamed/part_000, on an id
present in the store, stores under that id a record with the old id and
the payload's name and completed fields, leaves every other key's lookup
unchanged, and leaves the counter unchanged. -/
theorem C8_update_frame (st : MainGo.StoreState) (id : Int) (p t : MainGo.Task)
    (h : mapLookup st.tasks id = some t) :
    mapLookup (MainGo.updateTask st id (some p)).2.1.tasks id =
      some ⟨t.id, p.name, p.completed⟩ ∧
    (∀ k, k ≠ id → mapLookup (MainGo.updateTask st id (some p)).2.1.tasks k =
      mapLookup st.tasks k) ∧
    (MainGo.updateTask st id (some p)).2.1.nextID = st.nextID ∧
    mapLookup (Part000.updateTask st id (some p)).2.1.tasks id =
      some ⟨t.id, p.name, p.completed⟩ ∧
    (∀ k, k ≠ id → mapLookup (Part000.updateTask st id (some p)).2.1.tasks k =
      mapLookup st.tasks k) ∧
    (Part000.updateTask st id (some p)).2.1.nextID = st.nextID := by
  simp only [MainGo.updateTask, Part000.updateTask, h]
  refine ⟨mapLookup_insert_self st.tasks id _,
    fun k hk => mapLookup_insert_ne st.tasks id k _ hk, ?_,
    mapLookup_insert_self st.tasks id _,
    fun k hk => mapLookup_insert_ne st.tasks id k _ hk, ?_⟩ <;> trivial

theorem C8_witness :
    mapLookup ((⟨[(1, ⟨1, "A", false⟩), (2, ⟨2, "B", false⟩)], 3⟩ : MainGo.StoreState)).tasks 1 =
      some ⟨1, "A", false⟩ ∧
    mapLookup
      (MainGo.updateTask ⟨[(1, ⟨1, "A", false⟩), (2, ⟨2, "B", false⟩)], 3⟩ 1
        (some ⟨9, "A2", true⟩)).2.1.tasks 1 = some ⟨1, "A2", true⟩ :=
  ⟨by decide,
    (C8_update_frame ⟨[(1, ⟨1, "A", false⟩), (2, ⟨2, "B", false⟩)], 3⟩ 1
      ⟨9, "A2", true⟩ ⟨1, "A", false⟩ (by decide)).1⟩

/-- C9 as stated is false under Go's wrapping int: the dominance
invariant holds at the store with an empty map and the counter at the
maximum int 2^63 - 1, but a single create wraps the counter to -2^63,
below the id it just assigned, so the invariant is not preserved by every
operation. -/
theorem C9_counterexample :
    MainGo.counterInv ⟨[], 2 ^ 63 - 1⟩ ∧
    ¬ MainGo.counterInv
        (MainGo.stepS ⟨[], 2 ^ 63 - 1⟩ (MainGo.SOp.create ⟨0, "A", false⟩)) := by
  decide

/-- C9 (amended): in the server-assigned variants the counter invariant —
nextID strictly above every key in the tasks map — holds initially and is
preserved by every handler invocation of src/main.go and of
src/unnamed/part_000 that does not wrap the counter, that is, by every
operation except a create at the maximum int; along a run that never
wraps — true of every feasible run — nextID never decreases, so an id
present (and so also an id later deleted) stays strictly below nextID,
and a later create returns a record carrying the then-current nextID,
never that id again. -/
theorem C9_next_id_dominates (st : MainGo.StoreState) (op : MainGo.SOp) (id : Int)
    (t p : MainGo.Task) (ops : List MainGo.SOp)
    (h : MainGo.counterInv st) (hid : mapLookup st.tasks id = some t)
    (hop : MainGo.noOverflow st op = true)
    (hops : MainGo.runNoOverflow st ops = true)
    (hb : -(2 ^ 63) ≤ st.nextID ∧ st.nextID < 2 ^ 63 - 1) :
    MainGo.counterInv MainGo.initialState ∧
    MainGo.counterInv (MainGo.stepS st op) ∧
    MainGo.counterInv (Part000.addTask st (some p)).2.1 ∧
    MainGo.counterInv (Part000.updateTask st id (some p)).2.1 ∧
    MainGo.counterInv (Part000.deleteTask st id).2.1 ∧
    st.nextID ≤ (MainGo.runS st ops).nextID ∧
    id < (MainGo.runS st ops).nextID ∧
    (MainGo.addTask (MainGo.runS st ops) (some p)).1 =
      MainGo.Response.created { p with id := (MainGo.runS st ops).nextID } := by
  have hlt : id < st.nextID := h (id, t) (mapLookup_mem st.tasks id t hid)
  have hw : wrap64 (st.nextID + 1) = st.nextID + 1 :=
    wrap64_eq_self (st.nextID + 1) (by omega) (by omega)
  refine ⟨?_, MainGo.counterInv_stepS st op h hop, ?_, ?_, ?_,
    MainGo.runS_nextID_le st ops hops, ?_, rfl⟩
  · intro q hq
    simp [MainGo.initialState] at hq
  · simpa [Part000.addTask, hw] using
      MainGo.counterInv_insert_new st { p with id := st.nextID } h
  · simpa [Part000.updateTask, hid] using
      MainGo.counterInv_insert_existing st id
        { t with name := p.name, completed := p.completed } h hlt
  · simpa [Part000.deleteTask, hid] using MainGo.counterInv_erase st id h
  · exact lt_of_lt_of_le hlt (MainGo.runS_nextID_le st ops hops)

theorem C9_witness :
    MainGo.counterInv (⟨[(1, ⟨1, "A", false⟩)], 2⟩ : MainGo.StoreState) ∧
    mapLookup ((⟨[(1, ⟨1, "A", false⟩)], 2⟩ : MainGo.StoreState)).tasks 1 =
      some ⟨1, "A", false⟩ ∧
    MainGo.runNoOverflow ⟨[(1, ⟨1, "A", false⟩)], 2⟩ [MainGo.SOp.del 1] = true ∧
    (1 : Int) < (MainGo.runS ⟨[(1, ⟨1, "A", false⟩)], 2⟩ [MainGo.SOp.del 1]).nextID :=
  ⟨by decide, by decide, by decide,
    (C9_next_id_dominates ⟨[(1, ⟨1, "A", false⟩)], 2⟩ (MainGo.SOp.del 1) 1
      ⟨1, "A", false⟩ ⟨0, "B", false⟩ [MainGo.SOp.del 1]
      (by decide) (by decide) (by decide) (by decide) (by decide)).2.2.2.2.2.2.1⟩

/-- C10: createTask of src/unnamed/part_001 with a payload whose id is
already a key of the store silently replaces the record stored under that
id, answers 201 Created with no body (the Created response carries no
body by construction), leaves every other key's lookup unchanged, and
signals no duplicate-identifier error. -/
theorem C10_create_is_upsert (ts : Part001.Store) (p t : Part001.Task)
    (h : mapLookup ts p.id = some t) :
    (Part001.createTask ts (some p) none).1 = Part001.Response.created ∧
    mapLookup (Part001.createTask ts (some p) none).2.1 p.id = some p ∧
    ∀ k, k ≠ p.id → mapLookup (Part001.createTask ts (some p) none).2.1 k = mapLookup ts k := by
  refine ⟨rfl, mapLookup_insert_self ts p.id p, ?_⟩
  intro k hk
  exact mapLookup_insert_ne ts p.id k p hk

theorem C10_witness :
    mapLookup ([("a", ⟨"a", "old", false⟩)] : Part001.Store) "a" =
      some ⟨"a", "old", false⟩ ∧
    (Part001.createTask [("a", ⟨"a", "old", false⟩)] (some ⟨"a", "new", true⟩) none).1 =
      Part001.Response.created ∧
    mapLookup
      (Part001.createTask [("a", ⟨"a", "old", false⟩)] (some ⟨"a", "new", true⟩) none).2.1
        "a" = some ⟨"a", "new", true⟩ :=
  ⟨by decide,
    (C10_create_is_upsert [("a", ⟨"a", "old", false⟩)] ⟨"a", "new", true⟩
      ⟨"a", "old", false⟩ (by decide)).1,
    (C10_create_is_upsert [("a", ⟨"a", "old", false⟩)] ⟨"a", "new", true⟩
      ⟨"a", "old", false⟩ (by decide)).2.1⟩

end TodoList
